import Mathlib

/-!
Verification of the Project Core (`src/server/project.ts`) of the language-service
server.  The TypeScript source is shallowly embedded: classes become structures,
methods become pure functions threading explicit state, external collaborators
(compilation engine, resolution cache, typings cache) become oracle parameters,
and JavaScript object mutation (for compiler-options aliasing questions) is
modelled with a small explicit heap of options objects.

Conventions:
* field/definition names follow the source (`updateGraph`, `setTypings`, ...);
* `Option` stands for a possibly-`undefined` JavaScript value;
* JS `Map` objects become association lists in insertion order;
* the engine's successive `languageService.getProgram()` answers are supplied by
  an environment function indexed by the call count inside one `updateGraph`.
-/

/- ### Character and string helpers (JS `trim`, `indexOf`, `substr`) -/

/-- Whitespace characters removed by the JavaScript `String.prototype.trim`
(the ASCII part plus NBSP, which covers every specifier considered here). -/
def isJsWhitespace (c : Char) : Bool :=
  c = ' ' || c = '\t' || c = '\n' || c = '\r' || c = '\x0b' || c = '\x0c' || c = ' '

/-- Trim `isJsWhitespace` from both ends of a character list. -/
def trimChars (l : List Char) : List Char :=
  ((l.dropWhile isJsWhitespace).reverse.dropWhile isJsWhitespace).reverse

/-- Embedding of the JavaScript `name.trim()` call. -/
def jsTrim (s : String) : String :=
  String.mk (trimChars s.toList)

/-- Predicate "is not a slash", the scanning predicate of the specifier cut. -/
def notSlash (c : Char) : Bool :=
  !(c = '/')

/-- Embedding of JavaScript `indexOf` on a character list: position of the first
occurrence of `c`, if any (`-1` in the source becomes `none`). -/
def charListIndexOf : List Char → Char → Option Nat
  | [], _ => none
  | x :: xs, c => if x = c then some 0 else (charListIndexOf xs c).map (· + 1)

/-- Embedding of JavaScript `indexOf(c, start)`: first occurrence at or after
position `start`. -/
def charListIndexOfFrom (l : List Char) (c : Char) (start : Nat) : Option Nat :=
  (charListIndexOf (l.drop start) c).map (· + start)

/-- Core of `Project.extractUnresolvedImportsFromSourceFile` (project.ts 592-599)
on an already-trimmed character list:
`let i = trimmed.indexOf("/"); if (i !== -1 && trimmed.charCodeAt(0) === at)
 i = trimmed.indexOf("/", i + 1); if (i !== -1) trimmed = trimmed.substr(0, i)`. -/
def codePackageName (t : List Char) : List Char :=
  match charListIndexOf t '/' with
  | none => t
  | some i =>
    if t.head? = some '@' then
      match charListIndexOfFrom t '/' (i + 1) with
      | none => t
      | some j => t.take j
    else t.take i

/-- The canonicalization applied by project.ts 592-599 to one unresolved
specifier: trim, then cut at the first slash (bare names) or second slash
(names starting with `@`). -/
def canonicalizeImportSpecifier (name : String) : String :=
  String.mk (codePackageName (jsTrim name).toList)

/-- Modelled from the spec: `isExternalModuleNameRelative` lives in the compiler
core, which is not under src/; §4.3 excludes relative specifiers, which are
`.`/`..` alone or a `./`, `.\`, `../`, `..\` head. -/
def isExternalModuleNameRelative (name : String) : Bool :=
  match name.toList with
  | ['.'] => true
  | '.' :: '/' :: _ => true
  | '.' :: '\\' :: _ => true
  | ['.', '.'] => true
  | '.' :: '.' :: '/' :: _ => true
  | '.' :: '.' :: '\\' :: _ => true
  | _ => false

/-- Scopedness test of §4.3: first character is `@` (mirrors
`trimmed.charCodeAt(0) === CharacterCodes.at`). -/
def isScopedName (s : String) : Bool :=
  s.toList.head? = some '@'

/-- Number of `/` characters in a string. -/
def countSlashes (s : String) : Nat :=
  s.toList.count '/'

/- ### Specification-side formulation of the §4.3 cut (for the refinement) -/

/-- Stated from the spec's words (§4.3): "for bare names take the segment before
the first `/`; for scoped names (first character is `@`) take the segment
before the second `/`" — with the whole name kept when the required slash is
absent.  Compared below against `codePackageName`, the source formulation. -/
def specPackageName (t : List Char) : List Char :=
  if t.head? = some '@' then
    match t.dropWhile notSlash with
    | [] => t
    | _ :: rest => t.takeWhile notSlash ++ '/' :: rest.takeWhile notSlash
  else t.takeWhile notSlash

/-- Spec-side canonicalization of one specifier: trim, then `specPackageName`. -/
def specCanonicalize (name : String) : String :=
  String.mk (specPackageName (jsTrim name).toList)

/- ### Data model: unresolved-imports index, source files, programs -/

/-- Insertion-order association-list update mirroring JavaScript `Map.set`:
an existing key keeps its position, a new key is appended. -/
def assocSet (l : List (String × List String)) (k : String) (v : List String) :
    List (String × List String) :=
  match l with
  | [] => [(k, v)]
  | (kx, vx) :: rest =>
    if kx = k then (k, v) :: rest else (kx, vx) :: assocSet rest k v

/-- Embedding of `class UnresolvedImportsMap` (project.ts 60-86): a per-file map
of cached unresolved-import lists plus a version counter. -/
structure UnresolvedImportsMap where
  perFileMap : List (String × List String)
  version : Nat
  deriving DecidableEq, Repr

/-- `clear()` (project.ts 64-67): empty the map and reset the version to 0. -/
def UnresolvedImportsMap.clear (_m : UnresolvedImportsMap) : UnresolvedImportsMap :=
  { perFileMap := [], version := 0 }

/-- `getVersion()` (project.ts 69-71). -/
def UnresolvedImportsMap.getVersion (m : UnresolvedImportsMap) : Nat :=
  m.version

/-- `remove(path)` (project.ts 73-76): delete the entry and bump the version. -/
def UnresolvedImportsMap.remove (m : UnresolvedImportsMap) (path : String) :
    UnresolvedImportsMap :=
  { perFileMap := m.perFileMap.filter (fun e => !(e.1 = path)), version := m.version + 1 }

/-- `get(path)` (project.ts 78-80). -/
def UnresolvedImportsMap.get (m : UnresolvedImportsMap) (path : String) :
    Option (List String) :=
  (m.perFileMap.find? (fun e => e.1 = path)).map (·.2)

/-- `set(path, value)` (project.ts 82-85): store the entry and bump the version. -/
def UnresolvedImportsMap.set (m : UnresolvedImportsMap) (path : String)
    (value : List String) : UnresolvedImportsMap :=
  { perFileMap := assocSet m.perFileMap path value, version := m.version + 1 }

/-- A source file of a program snapshot: canonical path, file name, external-library
flag, and the `resolvedModules` mapping (specifier ↦ whether resolution succeeded;
`none` when the file has no mapping at all). -/
structure SourceFile where
  path : String
  fileName : String
  fromExternalLibrary : Bool
  resolvedModules : Option (List (String × Bool))
  deriving DecidableEq, Repr

/-- The `configFile` carried by a program's compiler options, with its extended
config sources (used by `getFileNames`). -/
structure ConfigFileModel where
  fileName : String
  extendedSourceFiles : List String
  deriving DecidableEq, Repr

/-- The engine's `StructureIsReused` enum (`Not = 0`, `SafeModules = 1 << 0`,
`Completely = 1 << 1`). -/
inductive StructureIsReused where
  | Not
  | SafeModules
  | Completely
  deriving DecidableEq, Repr

/-- Numeric flag values of `StructureIsReused`, as the source's bitmask uses them. -/
def StructureIsReused.toFlags : StructureIsReused → Nat
  | .Not => 0
  | .SafeModules => 1
  | .Completely => 2

/-- A program snapshot yielded by the compilation engine.  `id` stands for the
JavaScript object identity used by `this.program !== oldProgram`. -/
structure Program where
  id : Nat
  structureIsReused : StructureIsReused
  sourceFiles : List SourceFile
  configFile : Option ConfigFileModel
  deriving DecidableEq, Repr

/- ### Compiler options and an explicit heap of options objects -/

/-- The compiler-options fields the Project Core reads or writes.
`moduleResolutionSettings` abstracts every option that affects module
resolution (module kind, moduleResolution, paths, ...). -/
structure CompilerOptions where
  allowJs : Option Bool
  allowNonTsExtensions : Option Bool
  maxNodeModuleJsDepth : Option Int
  noEmitForJsFiles : Option Bool
  moduleResolutionSettings : Nat
  deriving DecidableEq, Repr, Inhabited

/-- Modelled from the spec: `changesAffectModuleResolution` lives in the compiler
core, which is not under src/; §4.1 describes it as "provided options differ in
ways that affect module resolution", modelled as comparing the abstract
resolution-affecting summary field. -/
def changesAffectModuleResolution (oldOptions newOptions : CompilerOptions) : Bool :=
  !(oldOptions.moduleResolutionSettings = newOptions.moduleResolutionSettings)

/-- A heap of compiler-options objects, giving JavaScript object identity to
options values so that cloning versus aliasing is observable. -/
structure OptionsHeap where
  objs : List CompilerOptions
  deriving DecidableEq, Repr

/-- Read the options object stored at `i`. -/
def OptionsHeap.deref (h : OptionsHeap) (i : Nat) : CompilerOptions :=
  h.objs.getD i default

/-- Overwrite the options object stored at `i` (a JavaScript field mutation). -/
def OptionsHeap.writeAt (h : OptionsHeap) (i : Nat) (o : CompilerOptions) : OptionsHeap :=
  { objs := h.objs.set i o }

/-- Allocate a fresh options object (used by `cloneCompilerOptions`). -/
def OptionsHeap.alloc (h : OptionsHeap) (o : CompilerOptions) : OptionsHeap × Nat :=
  ({ objs := h.objs ++ [o] }, h.objs.length)

/- ### Project state -/

/-- `ProjectKind` (project.ts 10-14). -/
inductive ProjectKind where
  | Inferred
  | Configured
  | External
  deriving DecidableEq, Repr

/-- The language-service value seen by a project: the engine's original service
or a plugin wrapper (§4.5: "ordered decorator list"), tagged by the plugin id. -/
inductive LanguageServiceModel where
  | original
  | proxied (pluginId : Nat) (inner : LanguageServiceModel)
  deriving DecidableEq, Repr

/-- The fields of `class Project` (project.ts 115-882) the verified operations
read or write.  Watcher handles, the builder and the host are external
collaborators and are not part of this state; `compilerOptionsId` points into
an `OptionsHeap`; `resolutionCache` abstracts the per-file entries of the
resolution cache (only cleared/invalidated wholesale here). -/
structure ProjectState where
  projectName : String
  projectKind : ProjectKind
  rootFileNames : List String
  program : Option Program
  cachedUnresolvedImportsPerFile : UnresolvedImportsMap
  lastCachedUnresolvedImportsList : Option (List String)
  languageService : LanguageServiceModel
  languageServiceEnabled : Bool
  compilerOptionsId : Nat
  resolutionCache : List String
  updatedFileNames : Option (List String)
  lastReportedFileNames : Option (List String)
  lastReportedVersion : Nat
  projectStructureVersion : Nat
  projectStateVersion : Nat
  typingFiles : Option (List String)
  deriving DecidableEq, Repr

/-- `markAsDirty()` (project.ts 572-574). -/
def Project.markAsDirty (s : ProjectState) : ProjectState :=
  { s with projectStateVersion := s.projectStateVersion + 1 }

/-- `registerFileUpdate(fileName)` (project.ts 568-570): record the name in the
`updatedFileNames` set (created on demand; `Map.set` keeps an existing key). -/
def Project.registerFileUpdate (s : ProjectState) (fileName : String) : ProjectState :=
  let cur := s.updatedFileNames.getD []
  { s with updatedFileNames := some (if fileName ∈ cur then cur else cur ++ [fileName]) }

/- ### Unresolved-import extraction (project.ts 576-606) -/

/-- Embedding of `Project.extractUnresolvedImportsFromSourceFile` (project.ts
576-606).  Returns the updated cache map and the `result` sink after the
appends.  On a cache hit (any cached array, the empty sentinel included) the
cached list is replayed; on a miss the file's `resolvedModules` are scanned for
failed, non-relative specifiers, which are canonicalized and both emitted and
cached (with the empty list as the sentinel when none were found). -/
def Project.extractUnresolvedImportsFromSourceFile (m : UnresolvedImportsMap)
    (file : SourceFile) (result : List String) : UnresolvedImportsMap × List String :=
  match m.get file.path with
  | some cached => (m, result ++ cached)
  | none =>
    let unresolvedImports :=
      match file.resolvedModules with
      | none => []
      | some mods =>
        mods.foldl
          (fun acc e =>
            if !e.2 && !isExternalModuleNameRelative e.1 then
              acc ++ [canonicalizeImportSpecifier e.1]
            else acc)
          []
    (m.set file.path unresolvedImports, result ++ unresolvedImports)

/-- Stated from the claim's words: the unresolved-import list §4.3 prescribes
for a file — the specifiers of its `resolvedModules` whose resolution failed
and which are not relative, trimmed and cut to the package head
(`specCanonicalize`). -/
def specUnresolvedImports (file : SourceFile) : List String :=
  ((file.resolvedModules.getD []).filter
      (fun e => !e.2 && !isExternalModuleNameRelative e.1)).map
    (fun e => specCanonicalize e.1)

/- ### setCompilerOptions (project.ts 797-815 and 907-922) -/

/-- Embedding of the base `Project.setCompilerOptions` (project.ts 797-815),
threading the options heap.  With `none` (JS `undefined`) nothing happens.
Otherwise: set `allowNonTsExtensions` on the incoming object; clear the
unresolved-imports index when the change affects module resolution; store the
incoming object; re-apply `noEmitForJsFiles` for inferred/external kinds; clear
the resolution cache on a resolution-affecting change; mark dirty. -/
def Project.setCompilerOptions (h : OptionsHeap) (s : ProjectState)
    (optionsId : Option Nat) : OptionsHeap × ProjectState :=
  match optionsId with
  | none => (h, s)
  | some oid =>
    let h1 := h.writeAt oid { h.deref oid with allowNonTsExtensions := some true }
    let s1 :=
      if changesAffectModuleResolution (h1.deref s.compilerOptionsId) (h1.deref oid) then
        { s with
          cachedUnresolvedImportsPerFile := s.cachedUnresolvedImportsPerFile.clear,
          lastCachedUnresolvedImportsList := none }
      else s
    let oldOptionsId := s1.compilerOptionsId
    let s2 := { s1 with compilerOptionsId := oid }
    let h2 :=
      if s2.projectKind = ProjectKind.Inferred ∨ s2.projectKind = ProjectKind.External then
        h1.writeAt oid { h1.deref oid with noEmitForJsFiles := some true }
      else h1
    let s3 :=
      if changesAffectModuleResolution (h2.deref oldOptionsId) (h2.deref oid) then
        { s2 with resolutionCache := [] }
      else s2
    (h2, Project.markAsDirty s3)

/-- Embedding of `InferredProject.setCompilerOptions` (project.ts 907-922).
`isJs` is the project's `_isJsInferredProject` flag.  The incoming options are
cloned (fresh heap object); with no incoming options the stored object itself
is used (it always exists in this model, so the `!newOptions` early return
cannot fire).  Then the `maxNodeModuleJsDepth` policy and `allowJs = true` are
applied to that object and the base setter is run on it. -/
def InferredProject.setCompilerOptions (isJs : Bool) (h : OptionsHeap)
    (s : ProjectState) (optionsId : Option Nat) : OptionsHeap × ProjectState :=
  let allocated : OptionsHeap × Nat :=
    match optionsId with
    | some oid => h.alloc (h.deref oid)
    | none => (h, s.compilerOptionsId)
  let h1 := allocated.1
  let newId := allocated.2
  let o := h1.deref newId
  let o1 :=
    if isJs && o.maxNodeModuleJsDepth.isNone then
      { o with maxNodeModuleJsDepth := some 2 }
    else if !isJs then
      { o with maxNodeModuleJsDepth := none }
    else o
  let h2 := h1.writeAt newId { o1 with allowJs := some true }
  Project.setCompilerOptions h2 s (some newId)

/- ### removeFile (project.ts 554-566) -/

/-- Embedding of `Project.removeFile` (project.ts 554-566) keyed by the file's
canonical path: drop it from the roots when it is one, invalidate its
resolution-cache entries, drop its unresolved-imports entry, mark dirty (the
script-info detach is an external effect). -/
def Project.removeFile (s : ProjectState) (path : String) : ProjectState :=
  let s1 :=
    if path ∈ s.rootFileNames then
      { s with rootFileNames := s.rootFileNames.erase path }
    else s
  let s2 :=
    { s1 with
      resolutionCache := s1.resolutionCache.filter (fun p => !(p = path)),
      cachedUnresolvedImportsPerFile := s1.cachedUnresolvedImportsPerFile.remove path }
  Project.markAsDirty s2

/- ### Graph update (project.ts 612-726) -/

/-- Embedding of `arrayIsEqualTo` (compiler core): `undefined` equals only
`undefined`; two arrays are compared by length and element-wise `===`. -/
def arrayIsEqualTo (a b : Option (List String)) : Bool :=
  match a, b with
  | none, none => true
  | some l1, some l2 => l1 = l2
  | _, _ => false

/-- Insert a string into a sorted, duplicate-free list. -/
def insertSortedUnique (x : String) : List String → List String
  | [] => [x]
  | y :: ys =>
    if x = y then y :: ys
    else if x < y then x :: y :: ys
    else y :: insertSortedUnique x ys

/-- Modelled from the spec: `toDeduplicatedSortedArray` lives in the compiler
core, which is not under src/; §4.2 step 4 says "deduplicate and sort". -/
def toDeduplicatedSortedArray (l : List String) : List String :=
  l.foldl (fun acc x => insertSortedUnique x acc) []

/-- First-occurrence deduplication, the key order of a JavaScript `Map`/set
built by repeated insertions (`arrayToSet`). -/
def jsSetList (l : List String) : List String :=
  l.foldl (fun acc x => if x ∈ acc then acc else acc ++ [x]) []

/-- The external collaborators one `updateGraph` call consults: the engine
(successive `languageService.getProgram()` answers, indexed by the worker-pass
count inside the call), the resolution cache's recorded changed files, the
typings cache, and the host's default library (used by `getFileNames` when the
language service is disabled). -/
structure UpdateEnv where
  getProgram : Nat → Program
  changedResolutions : List String
  typingsFor : Option (List String) → Bool → List String
  defaultLibFilePath : Option String

/-- Embedding of `Project.updateGraphWorker` (project.ts 673-726), which swaps
in the engine's current program and reports whether change was detected:
`hasChanges = !oldProgram || (this.program !== oldProgram &&
!(oldProgram.structureIsReused & StructureIsReused.Completely))`.  The
script-info detaches, missing-file watcher reconciliation and external-file
diffing it performs are effects on external collaborators (and the always-empty
base `getExternalFiles`), not on this state. -/
def Project.updateGraphWorker (env : UpdateEnv) (callIdx : Nat) (s : ProjectState) :
    ProjectState × Bool :=
  let newProgram := env.getProgram callIdx
  let hasChanges :=
    match s.program with
    | none => true
    | some oldProgram =>
      !(newProgram.id = oldProgram.id) && (oldProgram.structureIsReused.toFlags &&& 2 = 0)
  ({ s with program := some newProgram }, hasChanges)

/-- Result of one `updateGraph` call.  `unchanged` is the boolean the method
returns; the remaining fields instrument the call for the temporal claims:
how often the worker ran, whether `setTypings` replaced the typing list, the
typings-cache answer and the arguments it was given. -/
structure UpdateResult where
  state : ProjectState
  unchanged : Bool
  workerRuns : Nat
  typingsChanged : Bool
  cachedTypings : List String
  hasChangesFirstPass : Bool
  unresolvedImportsArg : Option (List String)
  deriving Repr

/-- Steps 3-4 of the graph update (project.ts 618-639): drop the cached entry of
every file whose resolution changed, and when the structure changed or some
resolution changed, re-extract the unresolved imports of every source file of
the (already swapped-in) program.  Returns the updated index and the new
`lastCachedUnresolvedImportsList` (the previous list when nothing was
recomputed). -/
def Project.updateGraphImports (env : UpdateEnv) (s1 : ProjectState)
    (hasChanges0 : Bool) : UnresolvedImportsMap × Option (List String) :=
  let changedFiles := env.changedResolutions
  let m1 := changedFiles.foldl (fun m p => m.remove p) s1.cachedUnresolvedImportsPerFile
  let recompute := hasChanges0 || !(changedFiles.length = 0)
  let extracted : UnresolvedImportsMap × List String :=
    if recompute then
      match s1.program with
      | some p =>
        p.sourceFiles.foldl
          (fun acc f => Project.extractUnresolvedImportsFromSourceFile acc.1 f acc.2)
          (m1, [])
      | none => (m1, [])
    else (m1, [])
  (extracted.1,
    if recompute then some (toDeduplicatedSortedArray extracted.2)
    else s1.lastCachedUnresolvedImportsList)

/-- Embedding of `Project.updateGraph` (project.ts 612-662).  The resolution
cache's start/finish recording brackets become the `env.changedResolutions`
answer; the re-extraction is `Project.updateGraphImports`; `setTypings`
(project.ts 664-671) is inlined as the element-wise comparison, store and
mark-dirty; builder notification is an external effect. -/
def Project.updateGraph (env : UpdateEnv) (s : ProjectState) : UpdateResult :=
  let s1 := (Project.updateGraphWorker env 0 s).1
  let hasChanges0 := (Project.updateGraphWorker env 0 s).2
  let imports := Project.updateGraphImports env s1 hasChanges0
  let lastList := imports.2
  let unresolvedImports := lastList
  let cachedTypings := env.typingsFor unresolvedImports hasChanges0
  let typingsChanged := !(arrayIsEqualTo s1.typingFiles (some cachedTypings))
  let s2 :=
    { s1 with
      cachedUnresolvedImportsPerFile := imports.1,
      lastCachedUnresolvedImportsList := lastList }
  let s3 :=
    if typingsChanged then
      Project.markAsDirty { s2 with typingFiles := some cachedTypings }
    else s2
  let s4 := if typingsChanged then (Project.updateGraphWorker env 1 s3).1 else s3
  let hasChanges :=
    if typingsChanged then (Project.updateGraphWorker env 1 s3).2 || hasChanges0
    else hasChanges0
  let s5 :=
    if hasChanges then
      { s4 with projectStructureVersion := s4.projectStructureVersion + 1 }
    else s4
  { state := s5
    unchanged := !hasChanges
    workerRuns := if typingsChanged then 2 else 1
    typingsChanged := typingsChanged
    cachedTypings := cachedTypings
    hasChangesFirstPass := hasChanges0
    unresolvedImportsArg := unresolvedImports }

/-- Stated from the claim's words (C1): change is detected exactly when there is
no previous program, or the new snapshot differs from the old one and the old
program's structure-reuse flag is less than `Completely`. -/
def detectChangeSpec (oldProgram : Option Program) (newProgram : Program) : Bool :=
  match oldProgram with
  | none => true
  | some oldP =>
    !(newProgram.id = oldP.id) &&
      decide (oldP.structureIsReused.toFlags < StructureIsReused.Completely.toFlags)

/- ### File-list and delta reporting (project.ts 466-501, 828-875) -/

/-- Embedding of `Project.getFileNames` (project.ts 466-501): nothing without a
program; with the language service disabled, the roots plus the default library
(from the env, as `getDefaultLibFilePath` is host code); otherwise the program's
source files (optionally without external-library files) plus the config file
and its extended sources (unless suppressed). -/
def Project.getFileNames (env : UpdateEnv) (s : ProjectState)
    (excludeFilesFromExternalLibraries : Bool) (excludeConfigFiles : Bool) :
    List String :=
  match s.program with
  | none => []
  | some p =>
    if !s.languageServiceEnabled then
      s.rootFileNames ++
        (match env.defaultLibFilePath with
         | some defaultLibrary => [defaultLibrary]
         | none => [])
    else
      (p.sourceFiles.filter
          (fun f => !(excludeFilesFromExternalLibraries && f.fromExternalLibrary))).map
        (fun f => f.fileName) ++
      (if !excludeConfigFiles then
        match p.configFile with
        | some configFile => configFile.fileName :: configFile.extendedSourceFiles
        | none => []
      else [])

/-- The `info` record built by `getChangesSinceVersion` (project.ts 831-837).
`optionsId` is the reference to the stored compiler-options object. -/
structure ProjectInfoModel where
  projectName : String
  version : Nat
  isInferred : Bool
  optionsId : Nat
  languageServiceDisabled : Bool
  deriving DecidableEq, Repr

/-- Build the `info` record from the current state (project.ts 831-837). -/
def Project.changeInfo (s : ProjectState) : ProjectInfoModel :=
  { projectName := s.projectName
    version := s.projectStructureVersion
    isInferred := s.projectKind = ProjectKind.Inferred
    optionsId := s.compilerOptionsId
    languageServiceDisabled := !s.languageServiceEnabled }

/-- The three result shapes of `getChangesSinceVersion`: a baseline with the
full file list, a no-change answer with `info` only, or a delta.  The
`projectErrors` component is the base class's constant empty list and is left
out. -/
inductive ChangesResult where
  | fullFiles (info : ProjectInfoModel) (files : List String)
  | noChanges (info : ProjectInfoModel)
  | delta (info : ProjectInfoModel) (added removed updated : List String)
  deriving DecidableEq, Repr

/-- Embedding of `Project.getChangesSinceVersion` (project.ts 828-875): run
`updateGraph`, build `info`, take and clear `updatedFileNames`; on a version
match against the last report, answer `info` alone (same structure version, no
updates) or the diff against the previously reported name set; otherwise the
full list.  Reported name sets are stored deduplicated (`arrayToSet`). -/
def Project.getChangesSinceVersion (env : UpdateEnv) (s : ProjectState)
    (lastKnownVersion : Option Nat) : ProjectState × ChangesResult :=
  let s1 := (Project.updateGraph env s).state
  let info := Project.changeInfo s1
  let updatedFileNames := s1.updatedFileNames
  let s2 := { s1 with updatedFileNames := none }
  if s2.lastReportedFileNames.isSome && lastKnownVersion = some s2.lastReportedVersion then
    let lastReportedFileNames := s2.lastReportedFileNames.getD []
    if s2.projectStructureVersion = s2.lastReportedVersion && updatedFileNames.isNone then
      (s2, ChangesResult.noChanges info)
    else
      let currentFiles := jsSetList (Project.getFileNames env s2 false false)
      let added := currentFiles.filter (fun id => !lastReportedFileNames.contains id)
      let removed := lastReportedFileNames.filter (fun id => !currentFiles.contains id)
      let updated := updatedFileNames.getD []
      ({ s2 with
          lastReportedFileNames := some currentFiles,
          lastReportedVersion := s2.projectStructureVersion },
        ChangesResult.delta info added removed updated)
  else
    let projectFileNames := Project.getFileNames env s2 false false
    ({ s2 with
        lastReportedFileNames := some (jsSetList projectFileNames),
        lastReportedVersion := s2.projectStructureVersion },
      ChangesResult.fullFiles info projectFileNames)

/- ### Configured project: pending reload and plugins (project.ts 989-1263) -/

/-- The behavior of one plugin module's `create(info)`: it either throws or
returns a wrapper around `info.languageService`, tagged with the plugin id. -/
inductive PluginCreateBehavior where
  | throws
  | wraps (pluginId : Nat)
  deriving DecidableEq, Repr

/-- The shapes a resolved plugin factory can take when `enableProxy` invokes it:
not a function at all, a function that throws, or a function returning a module
whose `create` behaves as given. -/
inductive PluginFactoryModel where
  | notAFunction
  | factoryThrows
  | returnsModule (create : PluginCreateBehavior)
  deriving DecidableEq, Repr

/-- Log lines `enableProxy` can produce (identified by kind, not text). -/
inductive LogEvent where
  | skippedNotAFunction
  | pluginActivationFailed
  deriving DecidableEq, Repr

/-- State specific to `class ConfiguredProject` as far as the claims reach:
the base project state, the `pendingReload` latch, the `plugins` array
(create behaviors of the pushed modules) and the logger output. -/
structure ConfiguredProjectState where
  base : ProjectState
  pendingReload : Bool
  plugins : List PluginCreateBehavior
  log : List LogEvent
  deriving DecidableEq, Repr

/-- The body of the `try` block of `ConfiguredProject.enableProxy` (project.ts
1099-1116), with a thrown exception as the `Except` error: reject non-function
factories (logged, no throw), run the factory, capture `info` with the current
language service, run `create`, install the returned wrapper and push the
module. -/
def ConfiguredProject.enableProxyBody (factory : PluginFactoryModel)
    (cs : ConfiguredProjectState) : Except Unit ConfiguredProjectState :=
  match factory with
  | .notAFunction => .ok { cs with log := cs.log ++ [LogEvent.skippedNotAFunction] }
  | .factoryThrows => .error ()
  | .returnsModule create =>
    match create with
    | .throws => .error ()
    | .wraps pluginId =>
      .ok
        { cs with
          base :=
            { cs.base with
              languageService :=
                LanguageServiceModel.proxied pluginId cs.base.languageService }
          plugins := cs.plugins ++ [create] }

/-- Embedding of `ConfiguredProject.enableProxy` (project.ts 1098-1120): the
body runs under `try`, and a thrown exception is caught and logged
("Plugin activation failed"), leaving the project untouched. -/
def ConfiguredProject.enableProxy (factory : PluginFactoryModel)
    (cs : ConfiguredProjectState) : ConfiguredProjectState :=
  match ConfiguredProject.enableProxyBody factory cs with
  | .ok cs1 => cs1
  | .error _ => { cs with log := cs.log ++ [LogEvent.pluginActivationFailed] }

/-- Activation of a list of plugins in load order, as `enablePlugins`
(project.ts 1045-1081) does for each resolvable entry. -/
def ConfiguredProject.enablePluginsList (factories : List PluginFactoryModel)
    (cs : ConfiguredProjectState) : ConfiguredProjectState :=
  factories.foldl (fun c f => ConfiguredProject.enableProxy f c) cs

/-- Result of `ConfiguredProject.updateGraph`: the new state, the returned
boolean, the worker-pass count, and how often
`projectService.reloadConfiguredProject(this)` was called. -/
structure ConfiguredUpdateResult where
  state : ConfiguredProjectState
  unchanged : Bool
  workerRuns : Nat
  reloadCalls : Nat
  deriving Repr

/-- Embedding of `ConfiguredProject.updateGraph` (project.ts 1027-1034): when
the `pendingReload` latch is set, clear it, delegate to
`projectService.reloadConfiguredProject(this)` and answer `true`; otherwise run
the base algorithm. -/
def ConfiguredProject.updateGraph (env : UpdateEnv) (cs : ConfiguredProjectState) :
    ConfiguredUpdateResult :=
  if cs.pendingReload then
    { state := { cs with pendingReload := false }
      unchanged := true
      workerRuns := 0
      reloadCalls := 1 }
  else
    let r := Project.updateGraph env cs.base
    { state := { cs with base := r.state }
      unchanged := r.unchanged
      workerRuns := r.workerRuns
      reloadCalls := 0 }

/- ### Public operations touching the unresolved-imports index (C9) -/

/-- The public `Project` operations that touch the unresolved-imports index:
file removal, a graph update (resolution-change removals and extraction
insertions) and `setCompilerOptions` (wholesale clear on a resolution-affecting
change). -/
inductive ProjectOp where
  | removeFileOp (path : String)
  | updateGraphOp (env : UpdateEnv)
  | setOptionsOp (optionsId : Option Nat)

/-- Whether an operation is a `setCompilerOptions` call. -/
def ProjectOp.isSetOptions : ProjectOp → Bool
  | .setOptionsOp _ => true
  | _ => false

/-- Whether an operation is a `setCompilerOptions` call whose provided options
differ from the stored ones in ways that affect module resolution — exactly the
condition under which project.ts 800-804 clears the unresolved-imports index
(the `allowNonTsExtensions` write performed just before the source's check does
not touch the resolution-affecting options, so the stored objects can be
compared directly). -/
def ProjectOp.affectsModuleResolution (h : OptionsHeap) (s : ProjectState) :
    ProjectOp → Bool
  | .setOptionsOp (some oid) =>
    changesAffectModuleResolution (h.deref s.compilerOptionsId) (h.deref oid)
  | _ => false

/-- Run one public operation on the heap and project state. -/
def Project.applyOp (h : OptionsHeap) (s : ProjectState) :
    ProjectOp → OptionsHeap × ProjectState
  | .removeFileOp path => (h, Project.removeFile s path)
  | .updateGraphOp env => (h, (Project.updateGraph env s).state)
  | .setOptionsOp optionsId => Project.setCompilerOptions h s optionsId

/- ### Concrete fixtures used by witnesses and counterexamples -/

/-- The empty unresolved-imports index, as a fresh project holds it. -/
def emptyUnresolvedImportsMap : UnresolvedImportsMap :=
  { perFileMap := [], version := 0 }

/-- A minimal program snapshot. -/
def sampleProgram : Program :=
  { id := 0, structureIsReused := StructureIsReused.Not, sourceFiles := [], configFile := none }

/-- A quiescent environment: the engine always answers `sampleProgram`, no
resolution changed, the typings cache answers the empty list. -/
def sampleEnv : UpdateEnv :=
  { getProgram := fun _ => sampleProgram
    changedResolutions := []
    typingsFor := fun _ _ => []
    defaultLibFilePath := none }

/-- A freshly constructed project state. -/
def baseProjectState : ProjectState :=
  { projectName := "p"
    projectKind := ProjectKind.Inferred
    rootFileNames := []
    program := none
    cachedUnresolvedImportsPerFile := emptyUnresolvedImportsMap
    lastCachedUnresolvedImportsList := none
    languageService := LanguageServiceModel.original
    languageServiceEnabled := true
    compilerOptionsId := 0
    resolutionCache := []
    updatedFileNames := none
    lastReportedFileNames := none
    lastReportedVersion := 0
    projectStructureVersion := 0
    projectStateVersion := 0
    typingFiles := none }

/-- A source file whose only resolved-modules entry is the failed, non-relative,
scoped specifier "@scope" (no slash at all). -/
def atScopeFile : SourceFile :=
  { path := "/a.ts"
    fileName := "/a.ts"
    fromExternalLibrary := false
    resolvedModules := some [("@scope", false)] }

/-- A two-object options heap whose object 1 differs from object 0 in the
module-resolution-affecting options. -/
def twoOptionsHeap : OptionsHeap :=
  { objs :=
      [{ allowJs := none, allowNonTsExtensions := none, maxNodeModuleJsDepth := none,
         noEmitForJsFiles := none, moduleResolutionSettings := 0 },
       { allowJs := none, allowNonTsExtensions := none, maxNodeModuleJsDepth := none,
         noEmitForJsFiles := none, moduleResolutionSettings := 1 }] }

/-- A one-object heap whose object 0 already carries a numeric
`maxNodeModuleJsDepth` of 5. -/
def depthFiveHeap : OptionsHeap :=
  { objs :=
      [{ allowJs := none, allowNonTsExtensions := none, maxNodeModuleJsDepth := some 5,
         noEmitForJsFiles := none, moduleResolutionSettings := 0 }] }

/- ### Claim C6 as stated, as a proposition -/

/-- Claim C6 as stated: for every specifier freshly emitted by the extraction of
§4.3, classified by the original specifier, a non-scoped original yields an
emitted string with no `/` and a scoped original one with exactly one `/`. -/
def claimC6Stated : Prop :=
  ∀ (m : UnresolvedImportsMap) (file : SourceFile) (name : String) (ok : Bool),
    m.get file.path = none →
    (name, ok) ∈ file.resolvedModules.getD [] →
    ok = false →
    isExternalModuleNameRelative name = false →
    canonicalizeImportSpecifier name ∈
        (Project.extractUnresolvedImportsFromSourceFile m file []).2 ∧
      (isScopedName name = false → countSlashes (canonicalizeImportSpecifier name) = 0) ∧
      (isScopedName name = true → countSlashes (canonicalizeImportSpecifier name) = 1)

/- ### Lemmas on the specifier cut -/

theorem charListIndexOf_none_takeWhile (t : List Char)
    (h : charListIndexOf t '/' = none) : t.takeWhile notSlash = t := by
  induction t with
  | nil => rfl
  | cons x xs ih =>
    simp only [charListIndexOf] at h
    by_cases hx : x = '/'
    · simp [hx] at h
    · simp only [hx, if_false, Option.map_eq_none'] at h
      simp [List.takeWhile_cons, notSlash, hx, ih h]

theorem charListIndexOf_none_dropWhile (t : List Char)
    (h : charListIndexOf t '/' = none) : t.dropWhile notSlash = [] := by
  have h2 := List.takeWhile_append_dropWhile (p := notSlash) (l := t)
  rw [charListIndexOf_none_takeWhile t h] at h2
  have h3 := congrArg List.length h2
  simp only [List.length_append] at h3
  have hz : (t.dropWhile notSlash).length = 0 := by omega
  exact List.eq_nil_of_length_eq_zero hz

theorem indexOf_slash_decomp (t : List Char) (i : Nat)
    (h : charListIndexOf t '/' = some i) :
    t = t.takeWhile notSlash ++ '/' :: t.drop (i + 1) ∧
      (t.takeWhile notSlash).length = i := by
  induction t generalizing i with
  | nil => simp [charListIndexOf] at h
  | cons x xs ih =>
    by_cases hx : x = '/'
    · have h0 : i = 0 := by
        simp [charListIndexOf, hx] at h
        omega
      subst h0
      subst hx
      simp [List.takeWhile_cons, notSlash]
    · have hns : notSlash x = true := by simp [notSlash, hx]
      simp only [charListIndexOf, if_neg hx, Option.map_eq_some'] at h
      obtain ⟨j, hj, rfl⟩ := h
      obtain ⟨hdec, hlen⟩ := ih j hj
      rw [List.takeWhile_cons_of_pos hns]
      refine ⟨?_, by simp [hlen]⟩
      show x :: xs = x :: List.takeWhile notSlash xs ++ '/' :: List.drop (j + 1) xs
      exact congrArg (List.cons x) hdec

theorem mem_takeWhile_notSlash (t : List Char) (x : Char)
    (hx : x ∈ t.takeWhile notSlash) : notSlash x = true := by
  induction t with
  | nil => simp at hx
  | cons y ys ih =>
    rw [List.takeWhile_cons] at hx
    by_cases hy : notSlash y
    · rw [if_pos hy] at hx
      rcases List.mem_cons.mp hx with h | h
      · exact h ▸ hy
      · exact ih h
    · simp [hy] at hx

theorem takeWhile_notSlash_append (a b : List Char)
    (ha : ∀ x ∈ a, notSlash x = true) :
    (a ++ '/' :: b).takeWhile notSlash = a := by
  induction a with
  | nil => simp [List.takeWhile_cons, notSlash]
  | cons x xs ih =>
    simp only [List.cons_append, List.takeWhile_cons_of_pos (ha x (List.mem_cons_self x xs))]
    rw [ih (fun y hy => ha y (List.mem_cons_of_mem x hy))]

theorem dropWhile_notSlash_append (a b : List Char)
    (ha : ∀ x ∈ a, notSlash x = true) :
    (a ++ '/' :: b).dropWhile notSlash = '/' :: b := by
  induction a with
  | nil => simp [List.dropWhile_cons, notSlash]
  | cons x xs ih =>
    simp only [List.cons_append, List.dropWhile_cons_of_pos (ha x (List.mem_cons_self x xs))]
    exact ih (fun y hy => ha y (List.mem_cons_of_mem x hy))

theorem take_len_append (a b : List Char) : (a ++ b).take a.length = a := by
  simp

theorem indexOf_some_take (t : List Char) (i : Nat)
    (h : charListIndexOf t '/' = some i) : t.take i = t.takeWhile notSlash := by
  obtain ⟨hdec, hlen⟩ := indexOf_slash_decomp t i h
  conv_lhs => rw [hdec]
  rw [← hlen]
  exact List.take_left _ _

theorem codePackageName_of_none (t : List Char)
    (h : charListIndexOf t '/' = none) : codePackageName t = t := by
  unfold codePackageName
  rw [h]

theorem codePackageName_of_some_scoped (t : List Char) (i : Nat)
    (h : charListIndexOf t '/' = some i) (hat : t.head? = some '@') :
    codePackageName t =
      match charListIndexOfFrom t '/' (i + 1) with
      | none => t
      | some j => t.take j := by
  unfold codePackageName
  rw [h]
  show (if t.head? = some '@' then
      match charListIndexOfFrom t '/' (i + 1) with
      | none => t
      | some j => t.take j
    else t.take i) = _
  rw [if_pos hat]

theorem codePackageName_of_some_bare (t : List Char) (i : Nat)
    (h : charListIndexOf t '/' = some i) (hat : ¬t.head? = some '@') :
    codePackageName t = t.take i := by
  unfold codePackageName
  rw [h]
  show (if t.head? = some '@' then
      match charListIndexOfFrom t '/' (i + 1) with
      | none => t
      | some j => t.take j
    else t.take i) = _
  rw [if_neg hat]

/-- The source's index-juggling cut equals the spec's segment description. -/
theorem codePackageName_eq_spec (t : List Char) : codePackageName t = specPackageName t := by
  cases hidx : charListIndexOf t '/' with
  | none =>
    have htw := charListIndexOf_none_takeWhile t hidx
    have hdw := charListIndexOf_none_dropWhile t hidx
    rw [codePackageName_of_none t hidx]
    unfold specPackageName
    by_cases hat : t.head? = some '@' <;> simp [hat, htw, hdw]
  | some i =>
    obtain ⟨hdec, hlen⟩ := indexOf_slash_decomp t i hidx
    have hmem := fun x hx => mem_takeWhile_notSlash t x hx
    by_cases hat : t.head? = some '@'
    · rw [codePackageName_of_some_scoped t i hidx hat]
      have hdw : t.dropWhile notSlash = '/' :: t.drop (i + 1) := by
        conv_lhs => rw [hdec]
        exact dropWhile_notSlash_append _ _ hmem
      unfold specPackageName
      rw [if_pos hat, hdw]
      have hfrom : charListIndexOfFrom t '/' (i + 1) =
          (charListIndexOf (t.drop (i + 1)) '/').map (· + (i + 1)) := rfl
      rw [hfrom]
      cases hb : charListIndexOf (t.drop (i + 1)) '/' with
      | none =>
        simp only [Option.map_none']
        rw [charListIndexOf_none_takeWhile _ hb]
        exact hdec
      | some j =>
        simp only [Option.map_some']
        have hbt : (t.drop (i + 1)).take j = (t.drop (i + 1)).takeWhile notSlash :=
          indexOf_some_take _ j hb
        conv_lhs => rw [hdec]
        rw [← hbt]
        have harr : (t.takeWhile notSlash ++ '/' :: t.drop (i + 1)).take (j + (i + 1)) =
            t.takeWhile notSlash ++ ('/' :: t.drop (i + 1)).take (j + 1) := by
          rw [List.take_append_eq_append_take]
          congr 1
          · rw [List.take_of_length_le]
            omega
          · congr 1
            omega
        rw [harr]
        rfl
    · rw [codePackageName_of_some_bare t i hidx hat]
      unfold specPackageName
      rw [if_neg hat]
      exact indexOf_some_take t i hidx

/-- Pointwise agreement of the source canonicalization with the spec's. -/
theorem canonicalize_eq_spec (name : String) :
    canonicalizeImportSpecifier name = specCanonicalize name := by
  unfold canonicalizeImportSpecifier specCanonicalize
  rw [codePackageName_eq_spec]

/- ### Lemmas on the extraction (project.ts 576-606) -/

theorem extract_foldl_eq (mods : List (String × Bool)) (acc : List String) :
    mods.foldl
        (fun acc e =>
          if !e.2 && !isExternalModuleNameRelative e.1 then
            acc ++ [canonicalizeImportSpecifier e.1]
          else acc)
        acc =
      acc ++
        (mods.filter (fun e => !e.2 && !isExternalModuleNameRelative e.1)).map
          (fun e => canonicalizeImportSpecifier e.1) := by
  induction mods generalizing acc with
  | nil => simp
  | cons e rest ih =>
    by_cases he : (!e.2 && !isExternalModuleNameRelative e.1) = true
    · rw [List.foldl_cons, if_pos he, ih (acc ++ [canonicalizeImportSpecifier e.1])]
      simp [List.filter_cons, he]
    · rw [List.foldl_cons, if_neg he, ih acc]
      simp [List.filter_cons, he]

/-- On a cache miss the extraction emits and caches exactly the spec's list. -/
theorem extract_miss (m : UnresolvedImportsMap) (file : SourceFile)
    (h : m.get file.path = none) :
    Project.extractUnresolvedImportsFromSourceFile m file [] =
      (m.set file.path (specUnresolvedImports file), specUnresolvedImports file) := by
  unfold Project.extractUnresolvedImportsFromSourceFile
  rw [h]
  cases hrm : file.resolvedModules with
  | none =>
    simp [specUnresolvedImports, hrm]
  | some mods =>
    have hspec : specUnresolvedImports file =
        (mods.filter (fun e => !e.2 && !isExternalModuleNameRelative e.1)).map
          (fun e => canonicalizeImportSpecifier e.1) := by
      unfold specUnresolvedImports
      rw [hrm]
      simp only [Option.getD_some]
      exact List.map_congr_left (fun e _ => (canonicalize_eq_spec e.1).symm)
    simp only [hspec, extract_foldl_eq, List.nil_append]

/-- On a cache hit the extraction replays the cached list and changes nothing. -/
theorem extract_hit (m : UnresolvedImportsMap) (file : SourceFile)
    (cachedList res : List String) (h : m.get file.path = some cachedList) :
    Project.extractUnresolvedImportsFromSourceFile m file res = (m, res ++ cachedList) := by
  unfold Project.extractUnresolvedImportsFromSourceFile
  rw [h]

/- ### Slash counts and scopedness of the canonicalized specifier -/

theorem count_slash_takeWhile (l : List Char) : (l.takeWhile notSlash).count '/' = 0 := by
  rw [List.count_eq_zero]
  intro hmem
  have h := mem_takeWhile_notSlash l '/' hmem
  simp [notSlash] at h

theorem specPackageName_count_bare (t : List Char) (hat : ¬t.head? = some '@') :
    (specPackageName t).count '/' = 0 := by
  unfold specPackageName
  rw [if_neg hat]
  exact count_slash_takeWhile t

theorem specPackageName_count_scoped (t : List Char) (hat : t.head? = some '@') :
    (specPackageName t).count '/' ≤ 1 := by
  unfold specPackageName
  rw [if_pos hat]
  cases hdw : t.dropWhile notSlash with
  | nil =>
    show t.count '/' ≤ 1
    have h2 := List.takeWhile_append_dropWhile (p := notSlash) (l := t)
    rw [hdw, List.append_nil] at h2
    rw [← h2, count_slash_takeWhile]
    exact Nat.zero_le 1
  | cons y rest =>
    show (t.takeWhile notSlash ++ '/' :: rest.takeWhile notSlash).count '/' ≤ 1
    simp [List.count_append, List.count_cons, count_slash_takeWhile]

theorem specPackageName_head (t : List Char) :
    ((specPackageName t).head? = some '@') ↔ (t.head? = some '@') := by
  by_cases hat : t.head? = some '@'
  · unfold specPackageName
    rw [if_pos hat]
    cases hdw : t.dropWhile notSlash with
    | nil =>
      show t.head? = some '@' ↔ _
      simp [hat]
    | cons y rest =>
      show (t.takeWhile notSlash ++ '/' :: rest.takeWhile notSlash).head? = some '@' ↔ _
      cases t with
      | nil => simp at hat
      | cons x xs =>
        have hx : x = '@' := by simpa using hat
        subst hx
        rw [List.takeWhile_cons_of_pos (by simp [notSlash])]
        simp
  · unfold specPackageName
    rw [if_neg hat]
    constructor
    · intro h
      exfalso
      rw [List.head?_takeWhile] at h
      cases ht : t.head? with
      | none => rw [ht] at h; simp at h
      | some c =>
        rw [ht] at h
        simp only [Option.filter] at h
        by_cases hc : notSlash c
        · rw [if_pos hc] at h
          exact hat (ht.trans (by simpa using h))
        · rw [if_neg hc] at h
          simp at h
    · intro h
      exact absurd h hat

/- ### Claims C3 and C6 -/

/-- C3: for every source file, unresolved-import extraction collects exactly the
failed, non-relative specifiers of the file's `resolvedModules` mapping, each
trimmed and canonicalized to its package head (first segment, or first two
segments when the first character is `@`), caches the list per file (the empty
list as sentinel), and a later extraction for an unchanged file returns the
cached list. -/
theorem c3_extract_collects_and_caches :
    ∀ (m : UnresolvedImportsMap) (file : SourceFile),
      (m.get file.path = none →
        Project.extractUnresolvedImportsFromSourceFile m file [] =
          (m.set file.path (specUnresolvedImports file), specUnresolvedImports file)) ∧
      (∀ (cachedList res : List String), m.get file.path = some cachedList →
        Project.extractUnresolvedImportsFromSourceFile m file res = (m, res ++ cachedList)) :=
  fun m file =>
    ⟨extract_miss m file, fun cachedList res h => extract_hit m file cachedList res h⟩

/-- Witness for C3 at a concrete file: a fresh extraction of `atScopeFile` and a
second extraction hitting the cache. -/
theorem c3_extract_collects_and_caches_witness :
    Project.extractUnresolvedImportsFromSourceFile emptyUnresolvedImportsMap atScopeFile [] =
      (emptyUnresolvedImportsMap.set atScopeFile.path (specUnresolvedImports atScopeFile),
        specUnresolvedImports atScopeFile) ∧
    Project.extractUnresolvedImportsFromSourceFile
        (emptyUnresolvedImportsMap.set atScopeFile.path ["@scope"]) atScopeFile [] =
      (emptyUnresolvedImportsMap.set atScopeFile.path ["@scope"], [] ++ ["@scope"]) :=
  ⟨(c3_extract_collects_and_caches emptyUnresolvedImportsMap atScopeFile).1 rfl,
   (c3_extract_collects_and_caches
      (emptyUnresolvedImportsMap.set atScopeFile.path ["@scope"]) atScopeFile).2
     ["@scope"] [] (by decide)⟩

/-- C6 (amended): every specifier freshly emitted by the extraction of §4.3
contains no `/` when it does not begin with `@`, and at most one `/` when it
begins with `@` (the emitted string begins with `@` exactly when the trimmed
original does).  The claim's "exactly one `/` for scoped names" fails for a
scoped specifier without a second slash, such as "@scope". -/
theorem c6_emitted_slash_count :
    ∀ (m : UnresolvedImportsMap) (file : SourceFile) (e : String),
      m.get file.path = none →
      e ∈ (Project.extractUnresolvedImportsFromSourceFile m file []).2 →
      (isScopedName e = false → countSlashes e = 0) ∧
        (isScopedName e = true → countSlashes e ≤ 1) := by
  intro m file e hmiss hmem
  rw [extract_miss m file hmiss] at hmem
  unfold specUnresolvedImports at hmem
  obtain ⟨pair, _hpair, rfl⟩ := List.mem_map.mp hmem
  have hscoped : isScopedName (specCanonicalize pair.1) = true ↔
      ((jsTrim pair.1).toList.head? = some '@') := by
    unfold isScopedName
    rw [decide_eq_true_iff]
    exact specPackageName_head ((jsTrim pair.1).toList)
  have hcount : countSlashes (specCanonicalize pair.1) =
      (specPackageName (jsTrim pair.1).toList).count '/' := rfl
  by_cases hat : (jsTrim pair.1).toList.head? = some '@'
  · constructor
    · intro h0
      rw [hscoped.mpr hat] at h0
      cases h0
    · intro _
      rw [hcount]
      exact specPackageName_count_scoped _ hat
  · constructor
    · intro _
      rw [hcount]
      exact specPackageName_count_bare _ hat
    · intro h1
      exact absurd (hscoped.mp h1) hat

/-- Witness for C6 (amended) at the concrete scoped specifier "@scope". -/
theorem c6_emitted_slash_count_witness : countSlashes "@scope" ≤ 1 :=
  (c6_emitted_slash_count emptyUnresolvedImportsMap atScopeFile "@scope"
      rfl (by decide)).2 (by decide)

/-- Counterexample for C6 as stated: the scoped specifier "@scope" has no second
slash, so the emitted string "@scope" contains zero `/`, not exactly one. -/
theorem c6_counterexample : ¬claimC6Stated := by
  intro h
  have h2 := h emptyUnresolvedImportsMap atScopeFile "@scope" false rfl (by decide) rfl
    (by decide)
  have h3 := h2.2.2 (by decide)
  have h4 : countSlashes (canonicalizeImportSpecifier "@scope") = 0 := by decide
  omega

/- ### Lemmas on the graph update -/

theorem structureIsReused_flag_iff (r : StructureIsReused) :
    decide (r.toFlags &&& 2 = 0) =
      decide (r.toFlags < StructureIsReused.Completely.toFlags) := by
  cases r <;> rfl

theorem updateGraphWorker_fst (env : UpdateEnv) (k : Nat) (s : ProjectState) :
    (Project.updateGraphWorker env k s).1 = { s with program := some (env.getProgram k) } :=
  rfl

theorem updateGraphWorker_snd (env : UpdateEnv) (k : Nat) (s : ProjectState) :
    (Project.updateGraphWorker env k s).2 = detectChangeSpec s.program (env.getProgram k) := by
  unfold Project.updateGraphWorker detectChangeSpec
  cases s.program with
  | none => rfl
  | some oldP =>
    simp only
    rw [structureIsReused_flag_iff]

/-- C1: `updateGraph()` returns `true` iff the file set is unchanged, where
change is detected exactly when there is no previous program, or the new
program snapshot differs from the old one and the old program's structure-reuse
flag is less than `Completely` (applied to each worker pass: the first against
the previous program, the second — run only when the typing list changed —
against the first pass's program); whenever change is detected,
`projectStructureVersion` is incremented by exactly one before returning. -/
theorem c1_updateGraph_unchanged_iff (env : UpdateEnv) (s : ProjectState) :
    (Project.updateGraph env s).unchanged =
      !(detectChangeSpec s.program (env.getProgram 0) ||
        ((Project.updateGraph env s).typingsChanged &&
          detectChangeSpec (some (env.getProgram 0)) (env.getProgram 1))) ∧
    (Project.updateGraph env s).state.projectStructureVersion =
      s.projectStructureVersion +
        (if (detectChangeSpec s.program (env.getProgram 0) ||
              ((Project.updateGraph env s).typingsChanged &&
                detectChangeSpec (some (env.getProgram 0)) (env.getProgram 1))) = true
          then 1 else 0) := by
  simp only [Project.updateGraph, updateGraphWorker_fst, updateGraphWorker_snd,
    Project.markAsDirty]
  by_cases htc :
      (!arrayIsEqualTo s.typingFiles
          (some (env.typingsFor
            (Project.updateGraphImports env { s with program := some (env.getProgram 0) }
                (detectChangeSpec s.program (env.getProgram 0))).2
            (detectChangeSpec s.program (env.getProgram 0))))) = true
  · simp only [htc, if_pos, if_true]
    constructor
    · cases detectChangeSpec s.program (env.getProgram 0) <;>
        cases detectChangeSpec (some (env.getProgram 0)) (env.getProgram 1) <;> simp
    · cases detectChangeSpec s.program (env.getProgram 0) <;>
        cases detectChangeSpec (some (env.getProgram 0)) (env.getProgram 1) <;> simp
  · simp only [htc, if_neg, if_false]
    constructor
    · cases detectChangeSpec s.program (env.getProgram 0) <;> simp
    · cases detectChangeSpec s.program (env.getProgram 0) <;> simp

/-- C4: within one `updateGraph` call the worker pass runs at most twice; the
typings-cache answer is compared element-wise with the previous typing list and
the worker is re-entered exactly once iff it differs, regardless of what the
second pass produces. -/
theorem c4_worker_runs_at_most_twice (env : UpdateEnv) (s : ProjectState) :
    (Project.updateGraph env s).workerRuns ≤ 2 ∧
    ((Project.updateGraph env s).workerRuns = 2 ↔
      arrayIsEqualTo s.typingFiles (some (Project.updateGraph env s).cachedTypings) = false) ∧
    (Project.updateGraph env s).cachedTypings =
      env.typingsFor (Project.updateGraph env s).unresolvedImportsArg
        (Project.updateGraph env s).hasChangesFirstPass := by
  simp only [Project.updateGraph, updateGraphWorker_fst, updateGraphWorker_snd,
    Project.markAsDirty]
  by_cases htc :
      (!arrayIsEqualTo s.typingFiles
          (some (env.typingsFor
            (Project.updateGraphImports env { s with program := some (env.getProgram 0) }
                (detectChangeSpec s.program (env.getProgram 0))).2
            (detectChangeSpec s.program (env.getProgram 0))))) = true
  · simp only [htc, if_true, if_pos]
    simp only [Bool.not_eq_true'] at htc
    simp [htc]
  · simp only [htc, if_false, if_neg]
    simp only [Bool.not_eq_true', Bool.not_eq_false] at htc
    simp [htc]

/- ### Lemmas for the delta-reporting claim -/

theorem updateGraph_frame (env : UpdateEnv) (s : ProjectState) :
    (Project.updateGraph env s).state.lastReportedFileNames = s.lastReportedFileNames ∧
    (Project.updateGraph env s).state.lastReportedVersion = s.lastReportedVersion ∧
    (Project.updateGraph env s).state.updatedFileNames = s.updatedFileNames := by
  simp only [Project.updateGraph, updateGraphWorker_fst, updateGraphWorker_snd,
    Project.markAsDirty]
  split_ifs <;> simp

theorem getFileNames_clearUpdated (env : UpdateEnv) (s : ProjectState) (a b : Bool) :
    Project.getFileNames env { s with updatedFileNames := none } a b =
      Project.getFileNames env s a b := rfl

/-- C2: `getChangesSinceVersion(lastKnownVersion)` returns exactly one of three
shapes: a baseline with the current full file list when `lastKnownVersion` is
absent or differs from the last reported version or nothing was reported
before; `info` only when it matches, `projectStructureVersion` (after the
internal graph update) equals the last reported version, and no file update was
registered; otherwise a delta `added`/`removed`/`updated` computed against the
previously reported file-name set. -/
theorem c2_getChangesSinceVersion_shapes (env : UpdateEnv) (s : ProjectState)
    (v : Option Nat) :
    (Project.getChangesSinceVersion env s v).2 =
      (if s.lastReportedFileNames = none ∨ ¬v = some s.lastReportedVersion then
        ChangesResult.fullFiles (Project.changeInfo (Project.updateGraph env s).state)
          (Project.getFileNames env (Project.updateGraph env s).state false false)
      else if (Project.updateGraph env s).state.projectStructureVersion =
            s.lastReportedVersion ∧ s.updatedFileNames = none then
        ChangesResult.noChanges (Project.changeInfo (Project.updateGraph env s).state)
      else
        ChangesResult.delta (Project.changeInfo (Project.updateGraph env s).state)
          ((jsSetList
              (Project.getFileNames env (Project.updateGraph env s).state false false)).filter
            (fun id => !(s.lastReportedFileNames.getD []).contains id))
          ((s.lastReportedFileNames.getD []).filter
            (fun id =>
              !(jsSetList
                  (Project.getFileNames env (Project.updateGraph env s).state false
                    false)).contains id))
          (s.updatedFileNames.getD [])) := by
  have hf := updateGraph_frame env s
  unfold Project.getChangesSinceVersion
  simp only [hf.1, hf.2.1, hf.2.2, getFileNames_clearUpdated]
  by_cases h1 : s.lastReportedFileNames = none ∨ ¬v = some s.lastReportedVersion
  · rw [if_pos h1]
    have hcond : (s.lastReportedFileNames.isSome && v = some s.lastReportedVersion) = false := by
      rcases h1 with h | h
      · simp [h]
      · simp [h]
    rw [if_neg (by simp [hcond])]
    rfl
  · push_neg at h1
    obtain ⟨hlr, hv⟩ := h1
    rw [if_neg (by
      simp [hlr, hv] :
        ¬(s.lastReportedFileNames = none ∨ ¬v = some s.lastReportedVersion))]
    rw [if_pos (by
      simp [Option.isSome_iff_ne_none, hlr, hv] :
        (s.lastReportedFileNames.isSome && v = some s.lastReportedVersion) = true)]
    by_cases h2 : (Project.updateGraph env s).state.projectStructureVersion =
        s.lastReportedVersion ∧ s.updatedFileNames = none
    · rw [if_pos h2]
      rw [if_pos (by simp [h2.1, h2.2] :
        ((Project.updateGraph env s).state.projectStructureVersion = s.lastReportedVersion &&
          s.updatedFileNames.isNone) = true)]
    · rw [if_neg h2]
      rw [if_neg (by
        intro hcon
        apply h2
        simp only [Bool.and_eq_true, decide_eq_true_eq, Option.isNone_iff_eq_none] at hcon
        exact hcon)]
      rfl

/-- C5: on a configured project whose `pendingReload` latch is set, `updateGraph`
clears the latch, delegates to `projectService.reloadConfiguredProject(this)`
once, and returns `true` without running the base graph-update algorithm (zero
worker passes, base state untouched); with the latch clear it behaves as the
base `updateGraph`. -/
theorem c5_configured_pendingReload (env : UpdateEnv) (cs : ConfiguredProjectState) :
    (cs.pendingReload = true →
      ConfiguredProject.updateGraph env cs =
        { state := { cs with pendingReload := false }
          unchanged := true
          workerRuns := 0
          reloadCalls := 1 }) ∧
    (cs.pendingReload = false →
      ConfiguredProject.updateGraph env cs =
        { state := { cs with base := (Project.updateGraph env cs.base).state }
          unchanged := (Project.updateGraph env cs.base).unchanged
          workerRuns := (Project.updateGraph env cs.base).workerRuns
          reloadCalls := 0 }) := by
  constructor
  · intro h
    unfold ConfiguredProject.updateGraph
    rw [if_pos h]
  · intro h
    unfold ConfiguredProject.updateGraph
    rw [if_neg (by simp [h])]

/-- Witness for C5: both latch states on a concrete configured project. -/
theorem c5_configured_pendingReload_witness :
    ConfiguredProject.updateGraph sampleEnv
        { base := baseProjectState, pendingReload := true, plugins := [], log := [] } =
      { state := { base := baseProjectState, pendingReload := false, plugins := [], log := [] }
        unchanged := true
        workerRuns := 0
        reloadCalls := 1 } ∧
    ConfiguredProject.updateGraph sampleEnv
        { base := baseProjectState, pendingReload := false, plugins := [], log := [] } =
      { state :=
          { base := (Project.updateGraph sampleEnv baseProjectState).state
            pendingReload := false
            plugins := []
            log := [] }
        unchanged := (Project.updateGraph sampleEnv baseProjectState).unchanged
        workerRuns := (Project.updateGraph sampleEnv baseProjectState).workerRuns
        reloadCalls := 0 } :=
  ⟨(c5_configured_pendingReload sampleEnv
      { base := baseProjectState, pendingReload := true, plugins := [], log := [] }).1 rfl,
   (c5_configured_pendingReload sampleEnv
      { base := baseProjectState, pendingReload := false, plugins := [], log := [] }).2 rfl⟩

/-- C8: an exception thrown by a plugin's factory or by its `create(info)` is
caught per plugin and logged, never propagated, and leaves the project's
language-service reference and installed-plugin list unchanged; hence with two
plugins where the first one's `create` throws, the second wraps the original
service. -/
theorem c8_plugin_exception_contained (factory : PluginFactoryModel)
    (cs : ConfiguredProjectState) :
    (ConfiguredProject.enableProxyBody factory cs = Except.error () →
      ConfiguredProject.enableProxy factory cs =
        { cs with log := cs.log ++ [LogEvent.pluginActivationFailed] }) ∧
    (cs.base.languageService = LanguageServiceModel.original →
      (ConfiguredProject.enablePluginsList
          [PluginFactoryModel.returnsModule PluginCreateBehavior.throws,
            PluginFactoryModel.returnsModule (PluginCreateBehavior.wraps 2)]
          cs).base.languageService =
        LanguageServiceModel.proxied 2 LanguageServiceModel.original) := by
  constructor
  · intro h
    unfold ConfiguredProject.enableProxy
    rw [h]
  · intro h
    unfold ConfiguredProject.enablePluginsList
    simp only [List.foldl_cons, List.foldl_nil]
    have h1 : ConfiguredProject.enableProxy
        (PluginFactoryModel.returnsModule PluginCreateBehavior.throws) cs =
        { cs with log := cs.log ++ [LogEvent.pluginActivationFailed] } := rfl
    rw [h1]
    simp [ConfiguredProject.enableProxy, ConfiguredProject.enableProxyBody, h]

/-- Witness for C8: a throwing factory on a concrete project, and the two-plugin
scenario on a fresh service. -/
theorem c8_plugin_exception_contained_witness :
    ConfiguredProject.enableProxy PluginFactoryModel.factoryThrows
        { base := baseProjectState, pendingReload := false, plugins := [], log := [] } =
      { base := baseProjectState, pendingReload := false, plugins := [],
        log := [LogEvent.pluginActivationFailed] } ∧
    (ConfiguredProject.enablePluginsList
        [PluginFactoryModel.returnsModule PluginCreateBehavior.throws,
          PluginFactoryModel.returnsModule (PluginCreateBehavior.wraps 2)]
        { base := baseProjectState, pendingReload := false, plugins := [],
          log := [] }).base.languageService =
      LanguageServiceModel.proxied 2 LanguageServiceModel.original :=
  ⟨(c8_plugin_exception_contained PluginFactoryModel.factoryThrows
      { base := baseProjectState, pendingReload := false, plugins := [], log := [] }).1 rfl,
   (c8_plugin_exception_contained PluginFactoryModel.factoryThrows
      { base := baseProjectState, pendingReload := false, plugins := [], log := [] }).2 rfl⟩

/- ### Heap lemmas for the compiler-options aliasing claims -/

theorem OptionsHeap.length_writeAt (h : OptionsHeap) (i : Nat) (o : CompilerOptions) :
    (h.writeAt i o).objs.length = h.objs.length := by
  unfold OptionsHeap.writeAt
  simp

theorem OptionsHeap.length_alloc (h : OptionsHeap) (o : CompilerOptions) :
    (h.alloc o).1.objs.length = h.objs.length + 1 := by
  unfold OptionsHeap.alloc
  simp

theorem OptionsHeap.deref_alloc_old (h : OptionsHeap) (o : CompilerOptions) (i : Nat)
    (hi : i < h.objs.length) : (h.alloc o).1.deref i = h.deref i := by
  unfold OptionsHeap.alloc OptionsHeap.deref
  simp only [List.getD_eq_getElem?_getD]
  rw [List.getElem?_append_left hi]

theorem OptionsHeap.deref_alloc_new (h : OptionsHeap) (o : CompilerOptions) :
    (h.alloc o).1.deref (h.alloc o).2 = o := by
  unfold OptionsHeap.alloc OptionsHeap.deref
  simp only [List.getD_eq_getElem?_getD]
  rw [List.getElem?_concat_length]
  rfl

theorem OptionsHeap.deref_writeAt_self (h : OptionsHeap) (i : Nat) (o : CompilerOptions)
    (hi : i < h.objs.length) : (h.writeAt i o).deref i = o := by
  unfold OptionsHeap.writeAt OptionsHeap.deref
  simp only [List.getD_eq_getElem?_getD]
  rw [List.getElem?_set_self hi]
  rfl

theorem OptionsHeap.deref_writeAt_ne (h : OptionsHeap) (i j : Nat) (o : CompilerOptions)
    (hij : ¬i = j) : (h.writeAt i o).deref j = h.deref j := by
  unfold OptionsHeap.writeAt OptionsHeap.deref
  simp only [List.getD_eq_getElem?_getD]
  rw [List.getElem?_set_ne hij]

/-- C7 (amended): `InferredProject.setCompilerOptions(options)` clones the
incoming options (the caller's object is unchanged and the stored reference is
a different object), enforces `allowJs = true` on the effective options, and —
when the project is JS-flavored — sets `maxNodeModuleJsDepth = 2` only if the
incoming options do not already carry a numeric value (a numeric incoming value
is kept); when not JS-flavored it clears it.  The claim's unconditional
"sets `maxNodeModuleJsDepth = 2` when JS-flavored" fails when the incoming
options carry `maxNodeModuleJsDepth = 5`. -/
theorem c7_inferred_setCompilerOptions (h : OptionsHeap) (s : ProjectState)
    (oid : Nat) (isJs : Bool) (hlt : oid < h.objs.length) :
    (InferredProject.setCompilerOptions isJs h s (some oid)).1.deref oid = h.deref oid ∧
    ¬(InferredProject.setCompilerOptions isJs h s (some oid)).2.compilerOptionsId = oid ∧
    ((InferredProject.setCompilerOptions isJs h s (some oid)).1.deref
        (InferredProject.setCompilerOptions isJs h s (some oid)).2.compilerOptionsId).allowJs =
      some true ∧
    ((InferredProject.setCompilerOptions isJs h s (some oid)).1.deref
        (InferredProject.setCompilerOptions isJs h s
            (some oid)).2.compilerOptionsId).maxNodeModuleJsDepth =
      (if isJs then
        (if (h.deref oid).maxNodeModuleJsDepth = none then some 2
          else (h.deref oid).maxNodeModuleJsDepth)
      else none) := by
  have hne : ¬(h.alloc (h.deref oid)).2 = oid := by
    show ¬h.objs.length = oid
    omega
  have hlt2 : (h.alloc (h.deref oid)).2 < (h.alloc (h.deref oid)).1.objs.length := by
    rw [OptionsHeap.length_alloc]
    show h.objs.length < h.objs.length + 1
    omega
  unfold InferredProject.setCompilerOptions Project.setCompilerOptions Project.markAsDirty
  simp only [OptionsHeap.deref_alloc_new]
  by_cases hj1 : (isJs && (h.deref oid).maxNodeModuleJsDepth.isNone) = true
  · simp only [hj1, if_true, if_pos]
    split_ifs <;>
      simp_all [OptionsHeap.length_writeAt, OptionsHeap.deref_writeAt_self,
        OptionsHeap.deref_writeAt_ne, OptionsHeap.deref_alloc_old, hne, hlt, hlt2,
        Option.isNone_iff_eq_none]
  · simp only [hj1, if_false, if_neg]
    by_cases hj2 : (!isJs) = true
    · simp only [hj2, if_true, if_pos]
      split_ifs <;>
        simp_all [OptionsHeap.length_writeAt, OptionsHeap.deref_writeAt_self,
          OptionsHeap.deref_writeAt_ne, OptionsHeap.deref_alloc_old, hne, hlt, hlt2,
          Option.isNone_iff_eq_none]
    · simp only [hj2, if_false, if_neg]
      split_ifs <;>
        simp_all [OptionsHeap.length_writeAt, OptionsHeap.deref_writeAt_self,
          OptionsHeap.deref_writeAt_ne, OptionsHeap.deref_alloc_old, hne, hlt, hlt2,
          Option.isNone_iff_eq_none]

/-- Counterexample for C7 as stated: on a JS-flavored inferred project, incoming
options already carrying `maxNodeModuleJsDepth = 5` keep that value — the
effective options do not get `maxNodeModuleJsDepth = 2`. -/
theorem c7_counterexample :
    ((InferredProject.setCompilerOptions true depthFiveHeap baseProjectState (some 0)).1.deref
        (InferredProject.setCompilerOptions true depthFiveHeap baseProjectState
            (some 0)).2.compilerOptionsId).maxNodeModuleJsDepth = some 5 ∧
    ¬((InferredProject.setCompilerOptions true depthFiveHeap baseProjectState (some 0)).1.deref
        (InferredProject.setCompilerOptions true depthFiveHeap baseProjectState
            (some 0)).2.compilerOptionsId).maxNodeModuleJsDepth = some 2 := by
  constructor <;> decide

/-- Witness for C7 (amended) at a concrete heap and options object. -/
theorem c7_inferred_setCompilerOptions_witness :
    0 < twoOptionsHeap.objs.length ∧
    (InferredProject.setCompilerOptions true twoOptionsHeap baseProjectState
        (some 0)).1.deref 0 = twoOptionsHeap.deref 0 :=
  ⟨by decide,
   (c7_inferred_setCompilerOptions twoOptionsHeap baseProjectState 0 true (by decide)).1⟩

/- ### Version-monotonicity lemmas for the unresolved-imports index -/

theorem version_foldl_remove (l : List String) (m : UnresolvedImportsMap) :
    m.version ≤ (l.foldl (fun m p => m.remove p) m).version := by
  induction l generalizing m with
  | nil => exact Nat.le_refl _
  | cons p rest ih =>
    rw [List.foldl_cons]
    exact Nat.le_trans (Nat.le_succ _) (ih (m.remove p))

theorem version_extract_mono (m : UnresolvedImportsMap) (f : SourceFile)
    (res : List String) :
    m.version ≤ (Project.extractUnresolvedImportsFromSourceFile m f res).1.version := by
  unfold Project.extractUnresolvedImportsFromSourceFile
  cases hm : m.get f.path with
  | some cached => exact Nat.le_refl _
  | none => exact Nat.le_succ _

theorem version_foldl_extract (files : List SourceFile)
    (acc : UnresolvedImportsMap × List String) :
    acc.1.version ≤
      (files.foldl
        (fun acc f => Project.extractUnresolvedImportsFromSourceFile acc.1 f acc.2)
        acc).1.version := by
  induction files generalizing acc with
  | nil => exact Nat.le_refl _
  | cons f rest ih =>
    rw [List.foldl_cons]
    exact Nat.le_trans (version_extract_mono acc.1 f acc.2)
      (ih (Project.extractUnresolvedImportsFromSourceFile acc.1 f acc.2))

theorem UnresolvedImportsMap.getVersion_eq (m : UnresolvedImportsMap) :
    m.getVersion = m.version := rfl

theorem updateGraphImports_version_mono (env : UpdateEnv) (s1 : ProjectState)
    (hc : Bool) :
    s1.cachedUnresolvedImportsPerFile.version ≤
      (Project.updateGraphImports env s1 hc).1.version := by
  simp only [Project.updateGraphImports]
  refine Nat.le_trans (version_foldl_remove env.changedResolutions
    s1.cachedUnresolvedImportsPerFile) ?_
  split_ifs with hrec
  · cases s1.program with
    | none => exact Nat.le_refl _
    | some p =>
      exact version_foldl_extract p.sourceFiles
        (List.foldl (fun m p => m.remove p) s1.cachedUnresolvedImportsPerFile
          env.changedResolutions, [])
  · exact Nat.le_refl _

theorem updateGraph_index_version_mono (env : UpdateEnv) (s : ProjectState) :
    s.cachedUnresolvedImportsPerFile.version ≤
      (Project.updateGraph env s).state.cachedUnresolvedImportsPerFile.version := by
  simp only [Project.updateGraph, updateGraphWorker_fst, updateGraphWorker_snd,
    Project.markAsDirty]
  have hm := updateGraphImports_version_mono env
    { s with program := some (env.getProgram 0) }
    (detectChangeSpec s.program (env.getProgram 0))
  split_ifs <;> simpa using hm

theorem OptionsHeap.writeAt_out_of_range (h : OptionsHeap) (i : Nat) (o : CompilerOptions)
    (hi : h.objs.length ≤ i) : h.writeAt i o = h := by
  unfold OptionsHeap.writeAt
  rw [List.set_eq_of_length_le hi]

theorem deref_writeAt_settings (h : OptionsHeap) (oid j : Nat) (o : CompilerOptions)
    (ho : o.moduleResolutionSettings = (h.deref oid).moduleResolutionSettings) :
    ((h.writeAt oid o).deref j).moduleResolutionSettings =
      (h.deref j).moduleResolutionSettings := by
  by_cases hj : oid = j
  · subst hj
    by_cases hlt : oid < h.objs.length
    · rw [OptionsHeap.deref_writeAt_self h oid o hlt, ho]
    · rw [OptionsHeap.writeAt_out_of_range h oid o (by omega)]
  · rw [OptionsHeap.deref_writeAt_ne h oid j o hj]

theorem changesAffect_writeAt (h : OptionsHeap) (oid j k : Nat) (o : CompilerOptions)
    (ho : o.moduleResolutionSettings = (h.deref oid).moduleResolutionSettings) :
    changesAffectModuleResolution ((h.writeAt oid o).deref j) ((h.writeAt oid o).deref k) =
      changesAffectModuleResolution (h.deref j) (h.deref k) := by
  unfold changesAffectModuleResolution
  rw [deref_writeAt_settings h oid j o ho, deref_writeAt_settings h oid k o ho]

/-- C9 (amended): across each public operation touching the unresolved-imports
index (file removal, graph update, `setCompilerOptions`), the version observed
via `getVersion` never decreases, except across a `setCompilerOptions` call
whose options change affects module resolution: its wholesale clear resets the
version to 0 — every other operation, a non-resolution-affecting
`setCompilerOptions` included, is non-decreasing, any decrease lands exactly on
0 and happens only on a resolution-affecting `setCompilerOptions`, and the
index's insertions and removals always increase the version.  The claim's
unconditional monotonicity fails because `clear()` resets the version. -/
theorem c9_index_version_monotonic (h : OptionsHeap) (s : ProjectState)
    (op : ProjectOp) :
    (ProjectOp.affectsModuleResolution h s op = false →
      s.cachedUnresolvedImportsPerFile.getVersion ≤
        (Project.applyOp h s op).2.cachedUnresolvedImportsPerFile.getVersion) ∧
    ((Project.applyOp h s op).2.cachedUnresolvedImportsPerFile.getVersion <
        s.cachedUnresolvedImportsPerFile.getVersion →
      ProjectOp.affectsModuleResolution h s op = true ∧
        (Project.applyOp h s op).2.cachedUnresolvedImportsPerFile.getVersion = 0) ∧
    (∀ (m : UnresolvedImportsMap) (path : String),
      (m.remove path).getVersion = m.getVersion + 1) ∧
    (∀ (m : UnresolvedImportsMap) (path : String) (value : List String),
      (m.set path value).getVersion = m.getVersion + 1) := by
  refine ⟨?_, ?_, fun m path => rfl, fun m path value => rfl⟩ <;> cases op
  case _ path =>
    have hv : (Project.applyOp h s
        (ProjectOp.removeFileOp path)).2.cachedUnresolvedImportsPerFile.getVersion =
        s.cachedUnresolvedImportsPerFile.getVersion + 1 := by
      simp only [Project.applyOp, Project.removeFile, Project.markAsDirty,
        UnresolvedImportsMap.remove, UnresolvedImportsMap.getVersion_eq]
      split_ifs <;> rfl
    rw [hv]
    intro _
    omega
  case _ env =>
    have hv := updateGraph_index_version_mono env s
    simp only [UnresolvedImportsMap.getVersion_eq, Project.applyOp]
    intro _
    exact hv
  case _ optionsId =>
    cases optionsId with
    | none =>
      intro _
      exact Nat.le_refl _
    | some oid =>
      intro hfalse
      simp only [ProjectOp.affectsModuleResolution] at hfalse
      have hcond := changesAffect_writeAt h oid s.compilerOptionsId oid
        { h.deref oid with allowNonTsExtensions := some true } rfl
      simp only [Project.applyOp, Project.setCompilerOptions, Project.markAsDirty,
        UnresolvedImportsMap.getVersion_eq]
      rw [hcond, hfalse]
      split_ifs <;> simp_all
  case _ path =>
    have hv : (Project.applyOp h s
        (ProjectOp.removeFileOp path)).2.cachedUnresolvedImportsPerFile.getVersion =
        s.cachedUnresolvedImportsPerFile.getVersion + 1 := by
      simp only [Project.applyOp, Project.removeFile, Project.markAsDirty,
        UnresolvedImportsMap.remove, UnresolvedImportsMap.getVersion_eq]
      split_ifs <;> rfl
    rw [hv]
    intro hlt
    exact absurd hlt (by omega)
  case _ env =>
    have hv := updateGraph_index_version_mono env s
    simp only [UnresolvedImportsMap.getVersion_eq, Project.applyOp] at hv ⊢
    intro hlt
    exact absurd hlt (by omega)
  case _ optionsId =>
    cases optionsId with
    | none =>
      intro hlt
      exact absurd hlt (by simp [Project.applyOp, Project.setCompilerOptions])
    | some oid =>
      intro hlt
      have hcond := changesAffect_writeAt h oid s.compilerOptionsId oid
        { h.deref oid with allowNonTsExtensions := some true } rfl
      simp only [Project.applyOp, Project.setCompilerOptions, Project.markAsDirty,
        UnresolvedImportsMap.getVersion_eq] at hlt ⊢
      rw [hcond] at hlt ⊢
      by_cases haff : changesAffectModuleResolution (h.deref s.compilerOptionsId)
          (h.deref oid) = true
      · refine ⟨by simp [ProjectOp.affectsModuleResolution, haff], ?_⟩
        rw [haff] at hlt ⊢
        split_ifs <;> simp_all [UnresolvedImportsMap.clear]
      · exfalso
        rw [Bool.not_eq_true] at haff
        simp only [haff, Bool.false_eq_true, if_false] at hlt
        split_ifs at hlt <;> simp at hlt

/-- Counterexample for C9 as stated: after a `removeFile` the index version is 1;
a following `setCompilerOptions` with options that affect module resolution
clears the index wholesale and the version observed via `getVersion` drops
back to 0 — it decreases. -/
theorem c9_counterexample :
    (Project.applyOp
        (Project.applyOp twoOptionsHeap baseProjectState (ProjectOp.removeFileOp "x")).1
        (Project.applyOp twoOptionsHeap baseProjectState (ProjectOp.removeFileOp "x")).2
        (ProjectOp.setOptionsOp (some 1))).2.cachedUnresolvedImportsPerFile.getVersion <
      (Project.applyOp twoOptionsHeap baseProjectState
          (ProjectOp.removeFileOp "x")).2.cachedUnresolvedImportsPerFile.getVersion := by
  decide

/-- Witness for C9 (amended): the non-decreasing conjunct at a `removeFile`
(not a resolution-affecting options change) and the decrease conjunct at a
resolution-affecting `setCompilerOptions`, which lands on 0. -/
theorem c9_index_version_monotonic_witness :
    (baseProjectState.cachedUnresolvedImportsPerFile.getVersion ≤
      (Project.applyOp twoOptionsHeap baseProjectState
          (ProjectOp.removeFileOp "x")).2.cachedUnresolvedImportsPerFile.getVersion) ∧
    (ProjectOp.affectsModuleResolution twoOptionsHeap
        (Project.applyOp twoOptionsHeap baseProjectState (ProjectOp.removeFileOp "x")).2
        (ProjectOp.setOptionsOp (some 1)) = true ∧
      (Project.applyOp twoOptionsHeap
          (Project.applyOp twoOptionsHeap baseProjectState (ProjectOp.removeFileOp "x")).2
          (ProjectOp.setOptionsOp (some 1))).2.cachedUnresolvedImportsPerFile.getVersion = 0) :=
  ⟨(c9_index_version_monotonic twoOptionsHeap baseProjectState
      (ProjectOp.removeFileOp "x")).1 (by decide),
   (c9_index_version_monotonic twoOptionsHeap
      (Project.applyOp twoOptionsHeap baseProjectState (ProjectOp.removeFileOp "x")).2
      (ProjectOp.setOptionsOp (some 1))).2.1 (by decide)⟩

/-- C10: calling the base `Project.setCompilerOptions` with an absent options
argument is a complete no-op: the heap (so no `allowNonTsExtensions` is set),
the stored options reference, the unresolved-imports index, the resolution
cache, and `projectStateVersion` (no dirty mark) are all left unchanged. -/
theorem c10_setCompilerOptions_undefined_noop (h : OptionsHeap) (s : ProjectState) :
    Project.setCompilerOptions h s none = (h, s) ∧
    (Project.setCompilerOptions h s none).1 = h ∧
    (Project.setCompilerOptions h s none).2.compilerOptionsId = s.compilerOptionsId ∧
    (Project.setCompilerOptions h s none).2.cachedUnresolvedImportsPerFile =
      s.cachedUnresolvedImportsPerFile ∧
    (Project.setCompilerOptions h s none).2.resolutionCache = s.resolutionCache ∧
    (Project.setCompilerOptions h s none).2.projectStateVersion = s.projectStateVersion :=
  ⟨rfl, rfl, rfl, rfl, rfl, rfl⟩
